import Mathlib

/-! Verification development for the mortgage-alert rate system: the
multi-source aggregation engine (`EnhancedRateScraper` in
`scrapers/rate_scraper.py`) and the append-only observation store
(`RateDataManager` in `data/data_manager.py`), embedded shallowly.
Python floats are modelled as exact rationals; `round(x, k)` is modelled as
round-half-to-even at `k` decimal places; effects are passed explicitly
(the current date as a parameter, success of each I/O step as a Boolean). -/

namespace MortgageAlert

/-- A calendar date as Python `datetime.date`: `(year, month, day)`,
compared lexicographically. -/
structure Date where
  year : ℕ
  month : ℕ
  day : ℕ
deriving DecidableEq, Repr

/-- Python date comparison `a <= b`: lexicographic on `(year, month, day)`. -/
def Date.leb (a b : Date) : Bool :=
  decide (a.year < b.year) || (decide (a.year = b.year) &&
    (decide (a.month < b.month) || (decide (a.month = b.month) && decide (a.day ≤ b.day))))

/-- One row of `rates.csv`.  The `timestamp` column (an ISO datetime string)
is redundant with `date` for every property below and is not modelled. -/
structure Observation where
  date : Date
  rate : ℚ
  source : String
  target_rate : ℚ
  state : String
  alert_sent : Bool
  daily_report_sent : Bool
  notes : String
deriving DecidableEq, Repr

/-- The strings `_calculate_trend` can produce (plus `'unknown'`, the initial
value and the value taken on an exception while computing the trend). -/
inductive Trend where
  | rising
  | falling
  | stable
  | insufficient_data
  | unknown
deriving DecidableEq, Repr

/-- Content of `metadata.json`.  `created`, `last_updated` (wall-clock
timestamps) and `data_size_kb` (on-disk file size) are pure effects no
claim touches and are not modelled. -/
structure Metadata where
  total_records : ℕ
  sources_used : List String
  latest_rate : Option ℚ
  rate_trend : Trend
deriving DecidableEq, Repr

/-- The persistent state a `RateDataManager` manipulates: the rows of
`rates.csv` plus `metadata.json`. -/
structure Store where
  rows : List Observation
  metadata : Metadata
deriving DecidableEq, Repr

/-- The cutoff date computed by `get_recent_rates`:
`datetime.now().date().replace(day=max(1, datetime.now().day - days))`.
Python's int subtraction followed by `max(1, _)` agrees with truncated ℕ
subtraction followed by `max 1 _` (for a valid date, `1 ≤ day`). -/
def cutoffDate (today : Date) (days : ℕ) : Date :=
  { today with day := max 1 (today.day - days) }

/-- Embeds `RateDataManager.get_recent_rates`: walk the rows, keep the `rate` of
every row whose `date` is on or after the cutoff, then return
`sorted(rates, reverse=True)` — i.e. sorted by descending rate value. -/
def get_recent_rates (rows : List Observation) (today : Date) (days : ℕ) : List ℚ :=
  ((rows.filter fun o => Date.leb (cutoffDate today days) o.date).map
    Observation.rate).insertionSort (· ≥ ·)

/-- The body of `RateDataManager._calculate_trend` applied to the list
returned by `get_recent_rates(days=7)`. -/
def trendOfRates (recent_rates : List ℚ) : Trend :=
  if recent_rates.length < 2 then .insufficient_data
  else
    let first_half := recent_rates.take (recent_rates.length / 2)
    let second_half := recent_rates.drop (recent_rates.length / 2)
    if first_half.isEmpty || second_half.isEmpty then .insufficient_data
    else
      let avg_first := first_half.sum / first_half.length
      let avg_second := second_half.sum / second_half.length
      if avg_first + 1/10 < avg_second then .rising
      else if avg_second < avg_first - 1/10 then .falling
      else .stable

/-- Embeds `RateDataManager._calculate_trend`: trend of `get_recent_rates(days=7)`. -/
def calculate_trend (rows : List Observation) (today : Date) : Trend :=
  trendOfRates (get_recent_rates rows today 7)

/-- Round to an integer, ties to even: Python's `round`. -/
def roundHalfEven (x : ℚ) : ℤ :=
  let n := ⌊x⌋
  if x - n < 1/2 then n
  else if 1/2 < x - n then n + 1
  else if n % 2 = 0 then n else n + 1

/-- Python `round(x, 3)`. -/
def round3 (x : ℚ) : ℚ := (roundHalfEven (x * 1000) : ℚ) / 1000

/-- Python `min` over a list; callers only apply it to non-empty lists
(Python raises on `[]`, an unreachable branch here modelled as junk 0). -/
def pyMin : List ℚ → ℚ
  | [] => 0
  | x :: xs => xs.foldl min x

/-- Python `max` over a list; see `pyMin`. -/
def pyMax : List ℚ → ℚ
  | [] => 0
  | x :: xs => xs.foldl max x

/-- The fields of the `get_rate_statistics` result.  `volatility` (a real
square root) and `data_size_kb` (on-disk file size) are not touched by any
claim and are not modelled. -/
structure Stats where
  period_days : ℕ
  record_count : ℕ
  latest_rate : ℚ
  average_rate : ℚ
  min_rate : ℚ
  max_rate : ℚ
  trend : Trend
deriving DecidableEq, Repr

/-- Embeds `RateDataManager.get_rate_statistics`; the `{'error': ...}` result
returned when the window holds no rates is `none`. -/
def get_rate_statistics (rows : List Observation) (today : Date) (days : ℕ) :
    Option Stats :=
  let rates := get_recent_rates rows today days
  if rates.isEmpty then none
  else some
    { period_days := days
      record_count := rates.length
      latest_rate := rates.headI
      average_rate := round3 (rates.sum / rates.length)
      min_rate := pyMin rates
      max_rate := pyMax rates
      trend := calculate_trend rows today }

/-- Embeds `RateDataManager._update_metadata`.  `metaOk = false` is the path where
one of its I/O steps raises: the exception is caught inside
`_update_metadata` itself (logged, not re-raised) and the metadata file is
left as it was. -/
def update_metadata (rows : List Observation) (md : Metadata) (rate : ℚ)
    (source : String) (today : Date) (metaOk : Bool) : Metadata :=
  if metaOk then
    { total_records := rows.length
      latest_rate := some rate
      sources_used :=
        if source ∈ md.sources_used then md.sources_used
        else md.sources_used ++ [source]
      rate_trend := calculate_trend rows today }
  else md

/-- Embeds `RateDataManager.save_rate`.  `appendOk` and `metaOk` say whether the
CSV append and the metadata recompute succeed; a failing append raises
inside `save_rate`'s own `try`, so nothing is written and `False` is
returned. -/
def save_rate (st : Store) (today : Date) (rate : ℚ) (source : String)
    (target_rate : ℚ) (state : String) (alert_sent daily_report_sent : Bool)
    (notes : String) (appendOk metaOk : Bool) : Bool × Store :=
  if !appendOk then (false, st)
  else
    let obs : Observation :=
      { date := today, rate := rate, source := source,
        target_rate := target_rate, state := state, alert_sent := alert_sent,
        daily_report_sent := daily_report_sent, notes := notes }
    let rows := st.rows ++ [obs]
    (true, { rows, metadata := update_metadata rows st.metadata rate source today metaOk })

/-- The metadata `_initialize_files` writes on first use. -/
def initialMetadata : Metadata :=
  { total_records := 0, sources_used := [], latest_rate := none, rate_trend := .unknown }

/-- A freshly initialized store: header-only CSV, initial metadata. -/
def initialStore : Store := { rows := [], metadata := initialMetadata }

/-- Confidence labels produced by `_calculate_confidence`. -/
inductive Confidence where
  | low
  | medium
  | high
deriving DecidableEq, Repr

/-- Embeds `EnhancedRateScraper._validate_rate`: the rate must lie in
`[2.0, 15.0]`, then the defensive `rate == 0 or rate > 20` recheck. -/
def validate_rate (rate : ℚ) : Bool :=
  if ¬(2 ≤ rate ∧ rate ≤ 15) then false
  else if rate = 0 ∨ 20 < rate then false
  else true

/-- Embeds `statistics.mean` (callers guard non-emptiness; junk on `[]`). -/
def mean (l : List ℚ) : ℚ := l.sum / l.length

/-- The square of `statistics.stdev`: sample variance with `n - 1`
denominator.  `_calculate_confidence` uses `stdev` only through the
comparisons `stdev / mean < c` with `c > 0` and `mean > 0`, which hold iff
`sampleVar < c^2 * mean^2`; keeping the square keeps the model in ℚ. -/
def sampleVar (l : List ℚ) : ℚ :=
  (l.map fun r => (r - mean l) ^ 2).sum / ((l.length : ℚ) - 1)

/-- The comparison `cv < c` of `_calculate_confidence`, where
`cv = stdev(rates) / mean(rates)` if the mean is positive and `cv = 1`
otherwise.  For the positive-mean case and the positive thresholds used
(`0.05`, `0.1`), `stdev / mean < c` is encoded squared. -/
def cvLt (rates : List ℚ) (c : ℚ) : Bool :=
  if 0 < mean rates then decide (sampleVar rates < c ^ 2 * (mean rates) ^ 2)
  else decide (1 < c)

/-- Embeds `EnhancedRateScraper._calculate_confidence`: top-down threshold ladder. -/
def calculate_confidence (rates : List ℚ) (sources : List String) : Confidence :=
  if rates.length < 2 then .low
  else if 3 ≤ sources.length ∧ cvLt rates (1/20) then .high
  else if 2 ≤ sources.length ∧ cvLt rates (1/10) then .medium
  else .low

/-- Embeds `statistics.median`: sort ascending; middle element for odd length, mean
of the two middle elements for even length (callers guard `[]`). -/
def median (l : List ℚ) : ℚ :=
  let s := l.insertionSort (· ≤ ·)
  if l.length % 2 = 1 then s.getD (l.length / 2) 0
  else (s.getD (l.length / 2 - 1) 0 + s.getD (l.length / 2) 0) / 2

/-- What one configured source's scraper call produces inside
`get_aggregated_rate`: a value, `None`, or a raised exception. -/
inductive Fetched where
  | val (r : ℚ)
  | noval
  | exn
deriving DecidableEq, Repr

/-- The keys of `EnhancedRateScraper.rate_sources`. -/
def knownSources : List String :=
  ["fred", "bankrate", "mortgage_news_daily", "freddiemac", "zillow", "nerdwallet"]

/-- Python dict assignment `d[k] = v`: overwrite in place if the key is
present, else append (insertion order preserved). -/
def dictInsert (d : List (String × Option ℚ)) (k : String) (v : Option ℚ) :
    List (String × Option ℚ) :=
  if d.any fun p => p.1 = k then d.map fun p => if p.1 = k then (k, v) else p
  else d ++ [(k, v)]

/-- The `source_data` dictionary built on the success path of
`get_aggregated_rate`. -/
structure AggResult where
  aggregated_rate : ℚ
  source_rates : List (String × Option ℚ)
  successful_sources : List String
  rate_count : ℕ
  min_rate : ℚ
  max_rate : ℚ
  average_rate : ℚ
  rate_spread : ℚ
  confidence : Confidence
deriving DecidableEq, Repr

/-- The two shapes `get_aggregated_rate` returns:
`(None, {'error': ..., 'sources': source_rates})` or
`(aggregated_rate, source_data)`. -/
inductive AggOutcome where
  | err (sources : List (String × Option ℚ))
  | ok (res : AggResult)
deriving DecidableEq, Repr

/-- One iteration of the fetch loop of `get_aggregated_rate`: a known
source stores its rate and is recorded successful when the value is truthy
(Python: non-`None` and non-zero) and passes validation; stores `None`
when the call raised; stores nothing when the value is `None`, falsy or
invalid.  Unknown sources are skipped entirely. -/
def fetchStep (acc : List (String × Option ℚ) × List String)
    (reading : String × Fetched) : List (String × Option ℚ) × List String :=
  if reading.1 ∈ knownSources then
    match reading.2 with
    | .val r =>
      if r ≠ 0 ∧ validate_rate r then
        (dictInsert acc.1 reading.1 (some r), acc.2 ++ [reading.1])
      else acc
    | .noval => acc
    | .exn => (dictInsert acc.1 reading.1 none, acc.2)
  else acc

/-- Embeds `EnhancedRateScraper.get_aggregated_rate`, as a function of each
preferred source's fetch outcome, in `preferred_sources` order. -/
def get_aggregated_rate (readings : List (String × Fetched)) : AggOutcome :=
  let acc := readings.foldl fetchStep ([], [])
  let source_rates := acc.1
  let successful_sources := acc.2
  let valid_rates := source_rates.filterMap Prod.snd
  if valid_rates.isEmpty then .err source_rates
  else
    .ok { aggregated_rate := round3 (median valid_rates)
          source_rates := source_rates
          successful_sources := successful_sources
          rate_count := valid_rates.length
          min_rate := pyMin valid_rates
          max_rate := pyMax valid_rates
          average_rate := round3 (mean valid_rates)
          rate_spread := round3 (pyMax valid_rates - pyMin valid_rates)
          confidence := calculate_confidence valid_rates successful_sources }

/-- The `source_rates` dictionary carried by either result shape. -/
def AggOutcome.sourceRates : AggOutcome → List (String × Option ℚ)
  | .err s => s
  | .ok r => r.source_rates

/-- Modelled from the spec (for the amended C5): the `source_rates` entry one
reading contributes — a raised fetch maps to `None`, a truthy valid rate maps
to its value, and everything else (absent value, falsy or invalid rate,
unknown source) contributes nothing. -/
def sourceEntry (p : String × Fetched) : Option (String × Option ℚ) :=
  if p.1 ∈ knownSources then
    match p.2 with
    | .val r => if r ≠ 0 ∧ validate_rate r then some (p.1, some r) else none
    | .noval => none
    | .exn => some (p.1, none)
  else none

/-- Modelled from the spec: the confidence ladder exactly as §4 words it,
keyed on `n = len(successful_sources)` in every tier, including the first
(`n < 2` ⇒ low); `cv` is the same sample-stdev/mean coefficient. -/
def confidenceSpec (valid : List ℚ) (n : ℕ) : Confidence :=
  if n < 2 then .low
  else if 3 ≤ n ∧ cvLt valid (1/20) then .high
  else if 2 ≤ n ∧ cvLt valid (1/10) then .medium
  else .low

/-- Modelled from the spec: days in a Gregorian calendar month, needed only
to state the spec's window `[today - windowDays, today]`; the source never
performs real calendar subtraction. -/
def daysInMonth (y m : ℕ) : ℕ :=
  if m = 2 then (if y % 4 = 0 ∧ (y % 100 ≠ 0 ∨ y % 400 = 0) then 29 else 28)
  else if m = 4 ∨ m = 6 ∨ m = 9 ∨ m = 11 then 30
  else 31

/-- Modelled from the spec: real calendar subtraction `today - n` days. -/
def Date.subDays : Date → ℕ → Date
  | d, 0 => d
  | d, n + 1 =>
    if 1 < d.day then Date.subDays ⟨d.year, d.month, d.day - 1⟩ n
    else if 1 < d.month then
      Date.subDays ⟨d.year, d.month - 1, daysInMonth d.year (d.month - 1)⟩ n
    else Date.subDays ⟨d.year - 1, 12, 31⟩ n

/-- Modelled from the spec: "returns every rate from Observations whose
`date` falls within `[today - windowDays, today]` inclusive, ordered
most-recent-first."  Rows are appended in chronological order, so
most-recent-first is the reverse of row order. -/
def recentRatesSpec (rows : List Observation) (today : Date) (days : ℕ) : List ℚ :=
  ((rows.filter fun o =>
    Date.leb (Date.subDays today days) o.date && Date.leb o.date today).map
      Observation.rate).reverse

/-- Modelled from the spec: trend derivation exactly as §4.2 words it —
fewer than 2 values give `insufficient_data`; otherwise bisect by index
into `first_half` (the first `⌊n/2⌋` elements) and `second_half` (the
rest), an empty half gives `insufficient_data`, and `mean(second_half)` is
compared with `mean(first_half)` against the ±0.1 thresholds. -/
def trendSpec (r : List ℚ) : Trend :=
  if r.length < 2 then .insufficient_data
  else
    let first_half := r.take (r.length / 2)
    let second_half := r.drop (r.length / 2)
    if first_half = [] ∨ second_half = [] then .insufficient_data
    else if mean first_half + 1/10 < mean second_half then .rising
    else if mean second_half < mean first_half - 1/10 then .falling
    else .stable

/-- First-appearance-order deduplication: the spec's "first-appearance
order, duplicates collapsed". -/
def dedupFirst (l : List String) : List String :=
  l.foldl (fun acc s => if s ∈ acc then acc else acc ++ [s]) []

/-- The observation a fully successful `save_rate st today rate source ...`
appends when the remaining CSV columns are fixed to neutral values. -/
def mkObs (today : Date) (rate : ℚ) (source : String) : Observation :=
  { date := today, rate := rate, source := source, target_rate := 0,
    state := "", alert_sent := false, daily_report_sent := false, notes := "" }

/-- A sequence of fully successful `save_rate` calls (both I/O steps
succeed), each saving one `(rate, source)` pair; the remaining columns do
not influence the metadata fields the claims are about. -/
def saveEntries (st : Store) (today : Date) (entries : List (ℚ × String)) : Store :=
  entries.foldl
    (fun s e => (save_rate s today e.1 e.2 0 "" false false "" true true).2) st

/-- Example observation used by concrete witnesses: June 10 2024, rate 3. -/
def obsJun10 : Observation :=
  { date := ⟨2024, 6, 10⟩, rate := 3, source := "fred", target_rate := 6,
    state := "BELOW", alert_sent := false, daily_report_sent := false, notes := "" }

/-- Example observation: June 14 2024 (more recent), rate 2.5 (lower). -/
def obsJun14 : Observation :=
  { obsJun10 with date := ⟨2024, 6, 14⟩, rate := 5/2 }

/-- Example observation: May 31 2024, rate 4. -/
def obsMay31 : Observation :=
  { obsJun10 with date := ⟨2024, 5, 31⟩, rate := 4 }

lemma foldl_min_le_init (xs : List ℚ) (x : ℚ) : xs.foldl min x ≤ x := by
  induction xs generalizing x with
  | nil => exact le_refl x
  | cons y ys ih => exact le_trans (ih (min x y)) (min_le_left x y)

lemma foldl_min_le_mem {xs : List ℚ} {a : ℚ} (x : ℚ) (h : a ∈ xs) :
    xs.foldl min x ≤ a := by
  induction xs generalizing x with
  | nil => cases h
  | cons y ys ih =>
    rcases List.mem_cons.mp h with rfl | h2
    · exact le_trans (foldl_min_le_init ys (min x a)) (min_le_right x a)
    · exact ih (min x y) h2

lemma pyMin_le_mem {l : List ℚ} {a : ℚ} (h : a ∈ l) : pyMin l ≤ a := by
  cases l with
  | nil => cases h
  | cons x xs =>
    show xs.foldl min x ≤ a
    rcases List.mem_cons.mp h with rfl | h2
    · exact foldl_min_le_init xs a
    · exact foldl_min_le_mem x h2

lemma le_foldl_max_init (xs : List ℚ) (x : ℚ) : x ≤ xs.foldl max x := by
  induction xs generalizing x with
  | nil => exact le_refl x
  | cons y ys ih => exact le_trans (le_max_left x y) (ih (max x y))

lemma le_foldl_max_mem {xs : List ℚ} {a : ℚ} (x : ℚ) (h : a ∈ xs) :
    a ≤ xs.foldl max x := by
  induction xs generalizing x with
  | nil => cases h
  | cons y ys ih =>
    rcases List.mem_cons.mp h with rfl | h2
    · exact le_trans (le_max_right x a) (le_foldl_max_init ys (max x a))
    · exact ih (max x y) h2

lemma mem_le_pyMax {l : List ℚ} {a : ℚ} (h : a ∈ l) : a ≤ pyMax l := by
  cases l with
  | nil => cases h
  | cons x xs =>
    show a ≤ xs.foldl max x
    rcases List.mem_cons.mp h with rfl | h2
    · exact le_foldl_max_init xs a
    · exact le_foldl_max_mem x h2

lemma foldl_max_of_le {xs : List ℚ} {x : ℚ} (h : ∀ a ∈ xs, a ≤ x) :
    xs.foldl max x = x := by
  induction xs generalizing x with
  | nil => rfl
  | cons y ys ih =>
    have hxy : max x y = x := max_eq_left (h y (List.mem_cons_self y ys))
    rw [List.foldl_cons, hxy]
    exact ih fun a ha => h a (List.mem_cons_of_mem y ha)

lemma headI_eq_pyMax {l : List ℚ} (hs : List.Sorted (· ≥ ·) l) (hne : l ≠ []) :
    l.headI = pyMax l := by
  cases l with
  | nil => exact absurd rfl hne
  | cons x xs =>
    have hx : ∀ a ∈ xs, a ≤ x := fun a ha => (List.sorted_cons.mp hs).1 a ha
    exact (foldl_max_of_le hx).symm

lemma roundHalfEven_bounds (x : ℚ) :
    x - 1/2 ≤ (roundHalfEven x : ℚ) ∧ (roundHalfEven x : ℚ) ≤ x + 1/2 := by
  have h1 : (⌊x⌋ : ℚ) ≤ x := Int.floor_le x
  have h2 : x < ⌊x⌋ + 1 := Int.lt_floor_add_one x
  simp only [roundHalfEven]
  split_ifs with ha hb hc
  all_goals constructor
  all_goals push_cast
  all_goals linarith

lemma round3_bounds (x : ℚ) :
    x - 1/2000 ≤ round3 x ∧ round3 x ≤ x + 1/2000 := by
  obtain ⟨h1, h2⟩ := roundHalfEven_bounds (x * 1000)
  unfold round3
  constructor
  · linarith
  · linarith

lemma sum_le_length_mul {l : List ℚ} {a : ℚ} (h : ∀ b ∈ l, b ≤ a) :
    l.sum ≤ (l.length : ℚ) * a := by
  induction l with
  | nil => simp
  | cons x xs ih =>
    have hx := h x (List.mem_cons_self x xs)
    have hxs := ih fun b hb => h b (List.mem_cons_of_mem x hb)
    rw [List.sum_cons, List.length_cons]
    push_cast
    ring_nf
    ring_nf at hxs
    linarith

lemma length_mul_le_of_forall {l : List ℚ} {c k : ℚ} (h : ∀ a ∈ l, c ≤ k * a) :
    (l.length : ℚ) * c ≤ k * l.sum := by
  induction l with
  | nil => simp
  | cons x xs ih =>
    have hx := h x (List.mem_cons_self x xs)
    have hxs := ih fun b hb => h b (List.mem_cons_of_mem x hb)
    rw [List.sum_cons, List.length_cons]
    push_cast
    ring_nf
    ring_nf at hxs
    linarith

lemma mean_le_mean {l1 l2 : List ℚ} (h1 : l1 ≠ []) (h2 : l2 ≠ [])
    (h : ∀ a ∈ l1, ∀ b ∈ l2, b ≤ a) :
    l2.sum / (l2.length : ℚ) ≤ l1.sum / (l1.length : ℚ) := by
  have n1 : (0 : ℚ) < l1.length := by exact_mod_cast List.length_pos.mpr h1
  have n2 : (0 : ℚ) < l2.length := by exact_mod_cast List.length_pos.mpr h2
  rw [div_le_div_iff₀ n2 n1]
  have key : (l1.length : ℚ) * l2.sum ≤ (l2.length : ℚ) * l1.sum :=
    length_mul_le_of_forall fun a ha => sum_le_length_mul fun b hb => h a ha b hb
  ring_nf
  ring_nf at key
  linarith

lemma take_drop_le {l : List ℚ} (hs : List.Sorted (· ≥ ·) l) (k : ℕ) :
    ∀ a ∈ l.take k, ∀ b ∈ l.drop k, b ≤ a := by
  have hp : List.Pairwise (· ≥ ·) (l.take k ++ l.drop k) := by
    rw [List.take_append_drop]
    exact hs
  intro a ha b hb
  exact (List.pairwise_append.mp hp).2.2 a ha b hb

lemma sorted_get_recent_rates (rows : List Observation) (today : Date) (days : ℕ) :
    List.Sorted (· ≥ ·) (get_recent_rates rows today days) :=
  List.sorted_insertionSort _ _

lemma trendOfRates_sorted_ne_rising {l : List ℚ} (hs : List.Sorted (· ≥ ·) l) :
    trendOfRates l ≠ .rising := by
  simp only [trendOfRates]
  split_ifs with h1 h2 h3 h4
  · decide
  · decide
  · exfalso
    have hne1 : l.take (l.length / 2) ≠ [] := by
      intro he
      apply h2
      rw [he]
      simp
    have hne2 : l.drop (l.length / 2) ≠ [] := by
      intro he
      apply h2
      rw [he]
      simp
    have hm := mean_le_mean hne1 hne2 (take_drop_le hs (l.length / 2))
    linarith
  · decide
  · decide

lemma getD_mem_of_lt {l : List ℚ} {i : ℕ} (h : i < l.length) : l.getD i 0 ∈ l := by
  rw [List.getD_eq_getElem _ _ h]
  exact List.getElem_mem h

lemma median_bounds {l : List ℚ} (h : l ≠ []) :
    pyMin l ≤ median l ∧ median l ≤ pyMax l := by
  have hlen : 0 < l.length := List.length_pos.mpr h
  have hperm : List.Perm (l.insertionSort (· ≤ ·)) l := List.perm_insertionSort _ _
  have hslen : (l.insertionSort (· ≤ ·)).length = l.length := hperm.length_eq
  have hi : l.length / 2 < (l.insertionSort (· ≤ ·)).length := by
    rw [hslen]
    exact Nat.div_lt_self hlen (by norm_num)
  have hi1 : l.length / 2 - 1 < (l.insertionSort (· ≤ ·)).length :=
    Nat.lt_of_le_of_lt (Nat.sub_le _ 1) hi
  have hm1 : (l.insertionSort (· ≤ ·)).getD (l.length / 2 - 1) 0 ∈ l :=
    hperm.mem_iff.mp (getD_mem_of_lt hi1)
  have hm2 : (l.insertionSort (· ≤ ·)).getD (l.length / 2) 0 ∈ l :=
    hperm.mem_iff.mp (getD_mem_of_lt hi)
  simp only [median]
  split_ifs with hodd
  · exact ⟨pyMin_le_mem hm2, mem_le_pyMax hm2⟩
  · have a1 := pyMin_le_mem hm1
    have a2 := pyMin_le_mem hm2
    have b1 := mem_le_pyMax hm1
    have b2 := mem_le_pyMax hm2
    constructor <;> linarith

lemma trendOfRates_eq_trendSpec (r : List ℚ) : trendOfRates r = trendSpec r := by
  simp only [trendOfRates, trendSpec, mean]
  by_cases h1 : r.length < 2
  · simp [h1]
  · simp only [h1, if_false]
    by_cases h2 : r.take (r.length / 2) = [] ∨ r.drop (r.length / 2) = []
    · have hb : ((r.take (r.length / 2)).isEmpty || (r.drop (r.length / 2)).isEmpty) = true := by
        rcases h2 with h2 | h2 <;> simp [h2]
      rw [if_pos hb, if_pos h2]
    · have hb : ¬((r.take (r.length / 2)).isEmpty || (r.drop (r.length / 2)).isEmpty) = true := by
        push_neg at h2
        simp only [Bool.or_eq_true, List.isEmpty_iff]
        rintro (he | he)
        · exact h2.1 he
        · exact h2.2 he
      rw [if_neg hb, if_neg h2]

/-- C9: the trend `_calculate_trend` derives from `get_recent_rates` output
can never be `rising`: the rate list is sorted by descending value before
the index bisection, so the second half's mean cannot exceed the first
half's mean, let alone exceed it by 0.1; only `insufficient_data`,
`falling`, `stable` (and, on an I/O exception, `unknown`) are reachable. -/
theorem C9_trend_never_rising (rows : List Observation) (today : Date) :
    calculate_trend rows today ∈
      [Trend.insufficient_data, Trend.falling, Trend.stable, Trend.unknown] := by
  have h : trendOfRates (get_recent_rates rows today 7) ≠ .rising :=
    trendOfRates_sorted_ne_rising (sorted_get_recent_rates rows today 7)
  cases hc : calculate_trend rows today
  · exact absurd hc h
  · simp
  · simp
  · simp
  · simp

/-- C10: whenever `get_rate_statistics` returns a non-error result, its
`latest_rate` field equals its `max_rate` field — `rates[0]` of the
descending-value-sorted list is the window maximum, not the most recently
recorded rate. -/
theorem C10_latest_eq_max (rows : List Observation) (today : Date) (days : ℕ)
    (res : Stats) (h : get_rate_statistics rows today days = some res) :
    res.latest_rate = res.max_rate := by
  have hs := sorted_get_recent_rates rows today days
  simp only [get_rate_statistics] at h
  split at h
  · exact absurd h (by simp)
  · rename_i hc
    obtain rfl := Option.some.inj h
    have hne : get_recent_rates rows today days ≠ [] := fun he => hc (by rw [he]; rfl)
    exact headI_eq_pyMax hs hne

/-- Witness for C10 at a concrete two-row store (rates 3 and 2.5, both
inside the 30-day window of 2024-06-15). -/
theorem C10_latest_eq_max_witness :
    (⟨30, 2, 3, 11/4, 5/2, 3, .falling⟩ : Stats).latest_rate =
      (⟨30, 2, 3, 11/4, 5/2, 3, .falling⟩ : Stats).max_rate :=
  C10_latest_eq_max [obsJun10, obsJun14] ⟨2024, 6, 15⟩ 30 _ (by
    have e30 : get_recent_rates [obsJun10, obsJun14] ⟨2024, 6, 15⟩ 30 = [3, 5/2] := by
      norm_num [get_recent_rates, cutoffDate, Date.leb, obsJun10, obsJun14,
        List.insertionSort, List.orderedInsert]
    have e7 : get_recent_rates [obsJun10, obsJun14] ⟨2024, 6, 15⟩ 7 = [3, 5/2] := by
      norm_num [get_recent_rates, cutoffDate, Date.leb, obsJun10, obsJun14,
        List.insertionSort, List.orderedInsert]
    have etrend : calculate_trend [obsJun10, obsJun14] ⟨2024, 6, 15⟩ = .falling := by
      simp only [calculate_trend, e7]
      norm_num [trendOfRates]
    have hf : ⌊(11/4 : ℚ) * 1000⌋ = 2750 := by
      rw [Int.floor_eq_iff]
      norm_num
    have hr : round3 (11/4) = 11/4 := by
      simp only [round3, roundHalfEven, hf]
      norm_num
    simp only [get_rate_statistics, e30, etrend]
    norm_num [pyMin, pyMax, List.headI, hr])

/-- C1 counterexample: two observations inside the window, appended in
chronological order, where the more recent one (2024-06-14) has the lower
rate 2.5: the claim's most-recent-first order is `[5/2, 3]`, but
`get_recent_rates` returns `[3, 5/2]` — ordered by descending rate value,
not by recency. -/
theorem C1_counterexample :
    get_recent_rates [obsJun10, obsJun14] ⟨2024, 6, 15⟩ 7 = [3, 5/2] ∧
    recentRatesSpec [obsJun10, obsJun14] ⟨2024, 6, 15⟩ 7 = [5/2, 3] ∧
    get_recent_rates [obsJun10, obsJun14] ⟨2024, 6, 15⟩ 7 ≠
      recentRatesSpec [obsJun10, obsJun14] ⟨2024, 6, 15⟩ 7 := by
  have hsub : Date.subDays ⟨2024, 6, 15⟩ 7 = ⟨2024, 6, 8⟩ := by decide
  have h1 : get_recent_rates [obsJun10, obsJun14] ⟨2024, 6, 15⟩ 7 = [3, 5/2] := by
    norm_num [get_recent_rates, cutoffDate, Date.leb, obsJun10, obsJun14,
      List.insertionSort, List.orderedInsert]
  have h2 : recentRatesSpec [obsJun10, obsJun14] ⟨2024, 6, 15⟩ 7 = [5/2, 3] := by
    simp only [recentRatesSpec, hsub]
    norm_num [Date.leb, obsJun10, obsJun14]
  refine ⟨h1, h2, ?_⟩
  rw [h1, h2]
  norm_num

/-- C1 (amended): `get_recent_rates` returns the rates of the selected rows
sorted by descending rate value (largest first) — a permutation of the
selected rates, not the most-recent-first sequence. -/
theorem C1_sorted_by_value (rows : List Observation) (today : Date) (days : ℕ) :
    List.Sorted (· ≥ ·) (get_recent_rates rows today days) ∧
    (get_recent_rates rows today days).Perm
      ((rows.filter fun o => Date.leb (cutoffDate today days) o.date).map
        Observation.rate) :=
  ⟨sorted_get_recent_rates rows today days, List.perm_insertionSort _ _⟩

/-- C4 counterexample: the observation dated 2024-05-31 lies inside the
spec's window `[2024-06-05 minus 7 days, 2024-06-05]`, yet
`get_recent_rates` drops it — the cutoff day-of-month is clamped to 1 and
never crosses into the previous month. -/
theorem C4_counterexample :
    Date.leb (Date.subDays ⟨2024, 6, 5⟩ 7) obsMay31.date = true ∧
    Date.leb obsMay31.date ⟨2024, 6, 5⟩ = true ∧
    get_recent_rates [obsMay31] ⟨2024, 6, 5⟩ 7 = [] := by decide

/-- C4 (amended): the multiset of returned rates is exactly the rates of
the rows whose `date` is on or after the date obtained from `today` by
replacing its day-of-month with `max 1 (day - windowDays)` — clamped to
the 1st of the current month — with no upper bound on the date. -/
theorem C4_window_characterisation (rows : List Observation) (today : Date)
    (days : ℕ) (q : ℚ) :
    (get_recent_rates rows today days).count q =
      ((rows.filter fun o =>
        Date.leb ⟨today.year, today.month, max 1 (today.day - days)⟩ o.date).map
          Observation.rate).count q :=
  (List.perm_insertionSort _ _).count_eq q

/-- C6: with as many valid rates as successful sources (which is what
`get_aggregated_rate` always passes), `_calculate_confidence` implements
exactly the spec's top-down ladder keyed on `n = len(successful_sources)`:
low for `n < 2`, else high iff `n ≥ 3` and `cv < 0.05`, else medium iff
`n ≥ 2` and `cv < 0.1`, else low. -/
theorem C6_confidence_ladder (rates : List ℚ) (sources : List String)
    (h : rates.length = sources.length) :
    calculate_confidence rates sources = confidenceSpec rates sources.length := by
  simp only [calculate_confidence, confidenceSpec, h]

/-- Witness for C6: three agreeing-but-not-that-closely sources
(9.4, 10, 10.6: cv is exactly 0.06) land on `medium`, not `high`. -/
theorem C6_confidence_ladder_witness :
    calculate_confidence [47/5, 10, 53/5] ["fred", "bankrate", "freddiemac"] =
      confidenceSpec [47/5, 10, 53/5] 3 ∧
    confidenceSpec [47/5, 10, 53/5] 3 = .medium :=
  ⟨C6_confidence_ladder [47/5, 10, 53/5] ["fred", "bankrate", "freddiemac"] rfl,
   by norm_num [confidenceSpec, cvLt, sampleVar, mean]⟩

/-- C8: `_calculate_trend` behaves on `get_recent_rates(days=7)` exactly as
the spec's `computeTrend` describes: `insufficient_data` below 2 values,
otherwise index bisection into the first `⌊n/2⌋` elements and the rest,
an empty half giving `insufficient_data`, and half-means compared against
the ±0.1 thresholds. -/
theorem C8_trend_matches_spec (rows : List Observation) (today : Date) :
    calculate_trend rows today = trendSpec (get_recent_rates rows today 7) :=
  trendOfRates_eq_trendSpec (get_recent_rates rows today 7)

/-- C2 counterexample: with the CSV append succeeding and the metadata
recompute failing, `save_rate` still returns `True` — the exception is
caught inside `_update_metadata` and never reaches `save_rate`'s handler —
while the appended row is kept and the metadata is left stale. -/
theorem C2_counterexample :
    (save_rate initialStore ⟨2024, 6, 5⟩ 5 "fred" 6 "BELOW" false false ""
      true false).1 = true ∧
    (save_rate initialStore ⟨2024, 6, 5⟩ 5 "fred" 6 "BELOW" false false ""
      true false).2.rows =
      [⟨⟨2024, 6, 5⟩, 5, "fred", 6, "BELOW", false, false, ""⟩] ∧
    (save_rate initialStore ⟨2024, 6, 5⟩ 5 "fred" 6 "BELOW" false false ""
      true false).2.metadata = initialMetadata :=
  ⟨rfl, rfl, rfl⟩

/-- C2 (amended): `save_rate` returns `False` exactly when the append
fails; when the append succeeds but the metadata recompute fails, it still
returns `True`, keeping the appended row and leaving the metadata as it
was (the failure is logged inside `_update_metadata`, not surfaced). -/
theorem C2_save_result (st : Store) (today : Date) (rate : ℚ) (source : String)
    (target_rate : ℚ) (state : String) (alert_sent daily_report_sent : Bool)
    (notes : String) (appendOk metaOk : Bool) :
    (save_rate st today rate source target_rate state alert_sent
      daily_report_sent notes appendOk metaOk).1 = appendOk ∧
    (appendOk = true → metaOk = false →
      (save_rate st today rate source target_rate state alert_sent
        daily_report_sent notes appendOk metaOk).2.rows =
        st.rows ++ [⟨today, rate, source, target_rate, state, alert_sent,
          daily_report_sent, notes⟩] ∧
      (save_rate st today rate source target_rate state alert_sent
        daily_report_sent notes appendOk metaOk).2.metadata = st.metadata) := by
  cases appendOk with
  | false => exact ⟨rfl, fun ha => Bool.noConfusion ha⟩
  | true =>
    refine ⟨rfl, fun _ hm => ?_⟩
    subst hm
    exact ⟨rfl, rfl⟩

/-- C3 counterexample: a single valid rate 5.0004 is its own median, and
rounding it to 3 decimal places gives 5.000, strictly below
`min_rate = 5.0004` — so `min_rate ≤ aggregated_rate` fails. -/
theorem C3_counterexample :
    get_aggregated_rate [("fred", Fetched.val (12501/2500))] =
      AggOutcome.ok ⟨5, [("fred", some (12501/2500))], ["fred"], 1,
        12501/2500, 12501/2500, 5, 0, .low⟩ ∧
    ¬((12501 : ℚ)/2500 ≤ 5) := by
  have hf : ⌊(12501/2500 : ℚ) * 1000⌋ = 5000 := by
    rw [Int.floor_eq_iff]
    norm_num
  have hr : round3 (12501/2500) = 5 := by
    simp only [round3, roundHalfEven, hf]
    norm_num
  have h0 : round3 0 = 0 := by
    simp only [round3, roundHalfEven]
    norm_num
  have hfm : List.filterMap Prod.snd [("fred", some ((12501 : ℚ)/2500))] =
      [12501/2500] := rfl
  constructor
  · norm_num [get_aggregated_rate, fetchStep, dictInsert, knownSources,
      validate_rate, median, List.insertionSort, List.orderedInsert,
      pyMin, pyMax, mean, calculate_confidence, hr, h0, hfm]
  · norm_num

lemma sourceEntry_fst {p : String × Fetched} {e : String × Option ℚ}
    (h : sourceEntry p = some e) : e.1 = p.1 := by
  rcases p with ⟨s, f⟩
  cases f with
  | val r =>
    by_cases hk : s ∈ knownSources
    · by_cases hv : r ≠ 0 ∧ validate_rate r
      · simp only [sourceEntry, if_pos hk, if_pos hv] at h
        obtain rfl := Option.some.inj h
        rfl
      · simp only [sourceEntry, if_pos hk, if_neg hv] at h
        exact Option.noConfusion h
    · simp only [sourceEntry, if_neg hk] at h
      exact Option.noConfusion h
  | noval =>
    by_cases hk : s ∈ knownSources
    · simp only [sourceEntry, if_pos hk] at h
      exact Option.noConfusion h
    · simp only [sourceEntry, if_neg hk] at h
      exact Option.noConfusion h
  | exn =>
    by_cases hk : s ∈ knownSources
    · simp only [sourceEntry, if_pos hk] at h
      obtain rfl := Option.some.inj h
      rfl
    · simp only [sourceEntry, if_neg hk] at h
      exact Option.noConfusion h

lemma dictInsert_of_not_mem {d : List (String × Option ℚ)} {k : String}
    (v : Option ℚ) (h : k ∉ d.map Prod.fst) :
    dictInsert d k v = d ++ [(k, v)] := by
  simp only [dictInsert]
  rw [if_neg]
  intro hc
  rw [List.any_eq_true] at hc
  obtain ⟨p, hp, he⟩ := hc
  exact h (List.mem_map.mpr ⟨p, hp, of_decide_eq_true he⟩)

lemma fetchStep_fst (acc : List (String × Option ℚ) × List String)
    (p : String × Fetched) (h : p.1 ∉ acc.1.map Prod.fst) :
    (fetchStep acc p).1 = acc.1 ++ (sourceEntry p).toList := by
  rcases p with ⟨s, f⟩
  cases f with
  | val r =>
    by_cases hk : s ∈ knownSources
    · by_cases hv : r ≠ 0 ∧ validate_rate r
      · simp only [fetchStep, sourceEntry, if_pos hk, if_pos hv,
          dictInsert_of_not_mem _ h, Option.toList]
      · simp only [fetchStep, sourceEntry, if_pos hk, if_neg hv, Option.toList,
          List.append_nil]
    · simp only [fetchStep, sourceEntry, if_neg hk, Option.toList, List.append_nil]
  | noval =>
    by_cases hk : s ∈ knownSources
    · simp only [fetchStep, sourceEntry, if_pos hk, Option.toList, List.append_nil]
    · simp only [fetchStep, sourceEntry, if_neg hk, Option.toList, List.append_nil]
  | exn =>
    by_cases hk : s ∈ knownSources
    · simp only [fetchStep, sourceEntry, if_pos hk, dictInsert_of_not_mem _ h,
        Option.toList]
    · simp only [fetchStep, sourceEntry, if_neg hk, Option.toList, List.append_nil]

lemma foldl_fetchStep_fst :
    ∀ (readings : List (String × Fetched)) (acc : List (String × Option ℚ) × List String),
      (∀ q ∈ readings, q.1 ∉ acc.1.map Prod.fst) → (readings.map Prod.fst).Nodup →
      (readings.foldl fetchStep acc).1 = acc.1 ++ readings.filterMap sourceEntry
  | [], acc, _, _ => by simp
  | p :: rest, acc, hd, hnd => by
    rw [List.foldl_cons]
    have hp1 : p.1 ∉ acc.1.map Prod.fst := hd p (List.mem_cons_self p rest)
    have hstep := fetchStep_fst acc p hp1
    rw [List.map_cons, List.nodup_cons] at hnd
    have hd2 : ∀ q ∈ rest, q.1 ∉ (fetchStep acc p).1.map Prod.fst := by
      intro q hq
      rw [hstep, List.map_append, List.mem_append]
      rintro (hin | hin)
      · exact hd q (List.mem_cons_of_mem p hq) hin
      · have hq1 : q.1 = p.1 := by
          rcases hmem : sourceEntry p with _ | e
          · rw [hmem] at hin
            simp at hin
          · rw [hmem] at hin
            have he : q.1 = e.1 := by simpa [Option.toList] using hin
            rw [he, sourceEntry_fst hmem]
        exact hnd.1 (List.mem_map.mpr ⟨q, hq, hq1⟩)
    have hrec := foldl_fetchStep_fst rest (fetchStep acc p) hd2 hnd.2
    rw [hrec, hstep, List.filterMap_cons]
    rcases hmem : sourceEntry p with _ | e
    · simp [hmem, Option.toList]
    · simp [hmem, Option.toList, List.append_assoc]

/-- C5 (amended): for pairwise-distinct source names, `source_rates`
holds, in input order, one entry per configured source whose fetch raised
(mapped to `None`) or returned a truthy valid rate (mapped to it); sources
whose reading was absent, falsy or invalid — and unknown sources — are
omitted entirely rather than mapped to `None`. -/
theorem C5_source_rates (readings : List (String × Fetched))
    (hnd : (readings.map Prod.fst).Nodup) :
    (get_aggregated_rate readings).sourceRates = readings.filterMap sourceEntry := by
  have hfold := foldl_fetchStep_fst readings ([], []) (by simp) hnd
  simp only [get_aggregated_rate]
  split_ifs with hempty
  · simpa [AggOutcome.sourceRates] using hfold
  · simpa [AggOutcome.sourceRates] using hfold

/-- Witness for C5's amended characterisation at a concrete reading list
with one raising source and one valid source. -/
theorem C5_source_rates_witness :
    (get_aggregated_rate [("fred", Fetched.exn), ("bankrate", Fetched.val 5)]).sourceRates =
      [("fred", Fetched.exn), ("bankrate", Fetched.val 5)].filterMap sourceEntry :=
  C5_source_rates _ (by simp)

/-- C5 counterexample: the configured source `fred` produces the invalid
rate 50 and is omitted from `source_rates` entirely (only raising sources
are mapped to `None`), so the claimed per-source entry for every
configured input source is absent. -/
theorem C5_counterexample :
    get_aggregated_rate [("fred", Fetched.val 50), ("bankrate", Fetched.val 5)] =
      AggOutcome.ok ⟨5, [("bankrate", some 5)], ["bankrate"], 1, 5, 5, 5, 0, .low⟩ ∧
    "fred" ∉ ([(("bankrate" : String), some (5 : ℚ))].map Prod.fst) := by
  have hf : ⌊(5 : ℚ) * 1000⌋ = 5000 := by
    rw [Int.floor_eq_iff]
    norm_num
  have hr : round3 5 = 5 := by
    simp only [round3, roundHalfEven, hf]
    norm_num
  have h0 : round3 0 = 0 := by
    simp only [round3, roundHalfEven]
    norm_num
  have hfm : List.filterMap Prod.snd [("bankrate", some (5 : ℚ))] = [5] := rfl
  constructor
  · norm_num [get_aggregated_rate, fetchStep, dictInsert, knownSources,
      validate_rate, median, List.insertionSort, List.orderedInsert,
      pyMin, pyMax, mean, calculate_confidence, hr, h0, hfm]
  · simp

/-- C3 (amended): the unrounded median lies between `min_rate` and
`max_rate`, and rounding to 3 decimal places moves it by at most `1/2000`,
so `min_rate - 1/2000 ≤ aggregated_rate ≤ max_rate + 1/2000`. -/
theorem C3_aggregated_bounds (readings : List (String × Fetched)) (res : AggResult)
    (h : get_aggregated_rate readings = .ok res) :
    res.min_rate - 1/2000 ≤ res.aggregated_rate ∧
    res.aggregated_rate ≤ res.max_rate + 1/2000 := by
  simp only [get_aggregated_rate] at h
  split at h
  · exact AggOutcome.noConfusion h
  · rename_i hne
    obtain rfl := AggOutcome.ok.inj h
    have hXne : ((readings.foldl fetchStep ([], [])).1.filterMap Prod.snd) ≠ [] :=
      fun he => hne (by rw [he]; rfl)
    have hmed := median_bounds hXne
    have hround := round3_bounds
      (median ((readings.foldl fetchStep ([], [])).1.filterMap Prod.snd))
    constructor
    · show pyMin ((readings.foldl fetchStep ([], [])).1.filterMap Prod.snd) - 1/2000 ≤
        round3 (median ((readings.foldl fetchStep ([], [])).1.filterMap Prod.snd))
      linarith [hmed.1, hround.1]
    · show round3 (median ((readings.foldl fetchStep ([], [])).1.filterMap Prod.snd)) ≤
        pyMax ((readings.foldl fetchStep ([], [])).1.filterMap Prod.snd) + 1/2000
      linarith [hmed.2, hround.2]

/-- Witness for C3's amended bounds at a concrete one-source reading. -/
theorem C3_aggregated_bounds_witness :
    (⟨5, [("fred", some 5)], ["fred"], 1, 5, 5, 5, 0, .low⟩ : AggResult).min_rate - 1/2000 ≤
      (⟨5, [("fred", some 5)], ["fred"], 1, 5, 5, 5, 0, .low⟩ : AggResult).aggregated_rate ∧
    (⟨5, [("fred", some 5)], ["fred"], 1, 5, 5, 5, 0, .low⟩ : AggResult).aggregated_rate ≤
      (⟨5, [("fred", some 5)], ["fred"], 1, 5, 5, 5, 0, .low⟩ : AggResult).max_rate + 1/2000 :=
  C3_aggregated_bounds [("fred", Fetched.val 5)] _ (by
    have hf : ⌊(5 : ℚ) * 1000⌋ = 5000 := by
      rw [Int.floor_eq_iff]
      norm_num
    have hr : round3 5 = 5 := by
      simp only [round3, roundHalfEven, hf]
      norm_num
    have h0 : round3 0 = 0 := by
      simp only [round3, roundHalfEven]
      norm_num
    have hfm : List.filterMap Prod.snd [("fred", some (5 : ℚ))] = [5] := rfl
    norm_num [get_aggregated_rate, fetchStep, dictInsert, knownSources,
      validate_rate, median, List.insertionSort, List.orderedInsert,
      pyMin, pyMax, mean, calculate_confidence, hr, h0, hfm])

lemma save_rate_ok_rows (st : Store) (today : Date) (rate : ℚ) (source : String) :
    (save_rate st today rate source 0 "" false false "" true true).2.rows =
      st.rows ++ [mkObs today rate source] := rfl

lemma save_rate_ok_metadata (st : Store) (today : Date) (rate : ℚ) (source : String) :
    (save_rate st today rate source 0 "" false false "" true true).2.metadata =
      { total_records := st.rows.length + 1,
        sources_used :=
          if source ∈ st.metadata.sources_used then st.metadata.sources_used
          else st.metadata.sources_used ++ [source],
        latest_rate := some rate,
        rate_trend := calculate_trend (st.rows ++ [mkObs today rate source]) today } := by
  show update_metadata (st.rows ++ [mkObs today rate source]) st.metadata rate source today true = _
  simp [update_metadata]

lemma saveEntries_cons (st : Store) (today : Date) (e : ℚ × String)
    (rest : List (ℚ × String)) :
    saveEntries st today (e :: rest) =
      saveEntries ((save_rate st today e.1 e.2 0 "" false false "" true true).2) today rest := rfl

lemma saveEntries_rows_length (today : Date) :
    ∀ (entries : List (ℚ × String)) (st : Store),
      (saveEntries st today entries).rows.length = st.rows.length + entries.length
  | [], st => by simp [saveEntries]
  | e :: rest, st => by
    rw [saveEntries_cons, saveEntries_rows_length today rest, save_rate_ok_rows]
    simp only [List.length_append, List.length_cons, List.length_nil]
    omega

lemma saveEntries_sources (today : Date) :
    ∀ (entries : List (ℚ × String)) (st : Store),
      (saveEntries st today entries).metadata.sources_used =
        entries.foldl (fun acc e => if e.2 ∈ acc then acc else acc ++ [e.2])
          st.metadata.sources_used
  | [], _ => rfl
  | e :: rest, st => by
    rw [saveEntries_cons, List.foldl_cons, saveEntries_sources today rest,
      save_rate_ok_metadata]

lemma saveEntries_total_latest (today : Date) :
    ∀ (entries : List (ℚ × String)) (st : Store), entries ≠ [] →
      (saveEntries st today entries).metadata.total_records =
        (saveEntries st today entries).rows.length ∧
      (saveEntries st today entries).metadata.latest_rate =
        (entries.map Prod.fst).getLast?
  | [], _, h => absurd rfl h
  | [e], st, _ => by
    have hnil : saveEntries ((save_rate st today e.1 e.2 0 "" false false "" true true).2)
        today [] = (save_rate st today e.1 e.2 0 "" false false "" true true).2 := rfl
    rw [saveEntries_cons, hnil]
    constructor
    · rw [save_rate_ok_metadata, save_rate_ok_rows]
      simp
    · rw [save_rate_ok_metadata]
      simp
  | e :: f :: t, st, _ => by
    rw [saveEntries_cons]
    have ih := saveEntries_total_latest today (f :: t)
      ((save_rate st today e.1 e.2 0 "" false false "" true true).2) (by simp)
    refine ⟨ih.1, ?_⟩
    rw [ih.2]
    simp [List.getLast?_cons_cons]

/-- C7: after any sequence of fully successful saves starting from a fresh
store, `total_records` equals the number of rows in the log,
`latest_rate` is the rate of the last appended observation, and
`sources_used` is the list of saved sources with duplicates collapsed in
first-appearance order (e.g. fred, bankrate, fred gives
`["fred", "bankrate"]` with `total_records = 3`). -/
theorem C7_metadata_invariant (today : Date) (entries : List (ℚ × String)) :
    (saveEntries initialStore today entries).metadata.total_records =
      (saveEntries initialStore today entries).rows.length ∧
    (saveEntries initialStore today entries).rows.length = entries.length ∧
    (saveEntries initialStore today entries).metadata.latest_rate =
      (entries.map Prod.fst).getLast? ∧
    (saveEntries initialStore today entries).metadata.sources_used =
      dedupFirst (entries.map Prod.snd) := by
  refine ⟨?_, ?_, ?_, ?_⟩
  · cases entries with
    | nil => rfl
    | cons e rest =>
      exact (saveEntries_total_latest today (e :: rest) initialStore (by simp)).1
  · rw [saveEntries_rows_length]
    simp [initialStore]
  · cases entries with
    | nil => rfl
    | cons e rest =>
      exact (saveEntries_total_latest today (e :: rest) initialStore (by simp)).2
  · rw [saveEntries_sources]
    unfold dedupFirst
    rw [List.foldl_map]
    rfl

/-- Witness for C2's amended theorem at a concrete save whose metadata
recompute fails. -/
theorem C2_save_result_witness :
    (save_rate initialStore ⟨2024, 1, 2⟩ 7 "bankrate" 6 "ABOVE" false false ""
      true false).1 = true ∧
    (save_rate initialStore ⟨2024, 1, 2⟩ 7 "bankrate" 6 "ABOVE" false false ""
      true false).2.rows =
      initialStore.rows ++ [⟨⟨2024, 1, 2⟩, 7, "bankrate", 6, "ABOVE", false, false, ""⟩] ∧
    (save_rate initialStore ⟨2024, 1, 2⟩ 7 "bankrate" 6 "ABOVE" false false ""
      true false).2.metadata = initialStore.metadata := by
  have h := C2_save_result initialStore ⟨2024, 1, 2⟩ 7 "bankrate" 6 "ABOVE"
    false false "" true false
  exact ⟨h.1, (h.2 rfl rfl).1, (h.2 rfl rfl).2⟩

end MortgageAlert
